import Mathlib

/-!
The driver my_cdev: a bounded-admission, single-slot character device

Shallow embedding of `src/my_cdev.c`.  The driver keeps one global record
`mcd` of type `struct my_char_dev`; every entry point reads and writes that
record.  Here each entry point is a pure function from the record (and its
arguments) to the new record and the returned status.

Conventions of the embedding:

* `uint8_t` fields are naturals reduced `% 256` at every store;
* `size_t` values are naturals, and a `size_t` expression returned through
  `ssize_t` goes through `toSsize` (two's complement on 64 bits);
* a byte is a natural number, a user buffer is a list of bytes whose length is
  the `len` argument;
* the outcome of a user-space copy (the number of bytes it could not move) is
  an explicit argument of the entry point that performs the copy.
-/

namespace MyCdev

/-! ## Constants -/

/-- Lower bound accepted for the admission limit (`#define MIN_USERS 1`). -/
def MIN_USERS : Nat := 1

/-- Upper bound accepted for the admission limit (`#define MAX_USERS 16`). -/
def MAX_USERS : Nat := 16

/-- Admission limit at load time (`#define DEFAULT_USERS MAX_USERS`). -/
def DEFAULT_USERS : Nat := MAX_USERS

/-- Capacity of the device buffer (`#define BUFFER_SIZE 1024`). -/
def BUFFER_SIZE : Nat := 1024

/-- Name of the device (`#define DEVICE_NAME "my_char_dev"`). -/
def DEVICE_NAME : String := "my_char_dev"

/-- Linux errno "device or resource busy". -/
def EBUSY : Int := 16

/-- Linux errno "invalid argument". -/
def EINVAL : Int := 22

/-- Linux errno "no space left on device". -/
def ENOSPC : Int := 28

/-! ## Machine integers -/

/-- Number of values of a `uint8_t`. -/
def U8_MOD : Nat := 256

/-- Number of values of a `size_t` / `unsigned long` (LP64). -/
def SIZE_MOD : Nat := 2 ^ 64

/-- Conversion of a `size_t` value to `ssize_t`: two's complement on 64 bits. -/
def toSsize (n : Nat) : Int :=
  if n % SIZE_MOD < 2 ^ 63 then ((n % SIZE_MOD : Nat) : Int)
  else ((n % SIZE_MOD : Nat) : Int) - (SIZE_MOD : Int)

/-- Subtraction of two `size_t` values, as the C expression `a - b`. -/
def sizeSub (a b : Nat) : Nat :=
  (a % SIZE_MOD + SIZE_MOD - b % SIZE_MOD) % SIZE_MOD

/-! ## Driver private structure -/

/-- The record `struct my_char_dev`.  Pointers are handles (`0` is `NULL`);
the padding field `unused` carries no behaviour and is left out. -/
structure my_char_dev where
  name : String
  «class» : Nat
  dev : Nat
  dbgfs_entry : Nat
  major_number : Nat
  minor_number : Nat
  max_users : Nat
  cur_users : Nat
  buf : List Nat
  buf_len : Nat
  deriving DecidableEq, Repr

/-- The static initialiser of `mcd`: `.name = DEVICE_NAME`,
`.max_users = DEFAULT_USERS`, every other member zero. -/
def mcd : my_char_dev :=
  { name := DEVICE_NAME
    «class» := 0
    dev := 0
    dbgfs_entry := 0
    major_number := 0
    minor_number := 0
    max_users := DEFAULT_USERS
    cur_users := 0
    buf := List.replicate BUFFER_SIZE 0
    buf_len := 0 }

/-- The two counters are `uint8_t` objects: their values are below 256. -/
def counters_fit (s : my_char_dev) : Prop :=
  s.max_users < U8_MOD ∧ s.cur_users < U8_MOD

instance (s : my_char_dev) : Decidable (counters_fit s) := by
  unfold counters_fit; exact inferInstance

/-! ## Admission: open and release -/

/-- Embedding of `mcd_open`: refuse with `-EBUSY` when the limit is reached,
otherwise `++mcd.cur_users` and return 0. -/
def mcd_open (s : my_char_dev) : my_char_dev × Int :=
  if s.cur_users ≥ s.max_users then
    (s, -EBUSY)
  else
    ({ s with cur_users := (s.cur_users + 1) % U8_MOD }, 0)

/-- Embedding of `mcd_release`: `--mcd.cur_users` on a `uint8_t`, return 0. -/
def mcd_release (s : my_char_dev) : my_char_dev × Int :=
  ({ s with cur_users := (s.cur_users + U8_MOD - 1) % U8_MOD }, 0)

/-! ## The byte-copy primitives -/

/-- Modelled from the spec: the byte-copy primitive `raw_copy_from_user` is a
kernel routine, not part of the source file.  It moves `n` bytes from the
caller's buffer `src` into the trusted buffer `dst` and returns the count `u`
of bytes that failed to transfer (0 = full success); the bytes that did
transfer are the leading `n - u`.  The result is the new trusted buffer and
the returned count. -/
def raw_copy_from_user (dst src : List Nat) (n u : Nat) : List Nat × Nat :=
  (src.take (n - u) ++ dst.drop (n - u), u)

/-- Modelled from the spec: the byte-copy primitive `raw_copy_to_user` is a
kernel routine, not part of the source file.  It moves `n` bytes from the
trusted buffer `src` to the caller and returns the count `u` of bytes that
failed to transfer (0 = full success).  The result is the list of bytes the
caller received (the leading `n - u`) and the returned count. -/
def raw_copy_to_user (src : List Nat) (n u : Nat) : List Nat × Nat :=
  (src.take (n - u), u)

/-! ## Buffer transfer: read and write -/

/-- Embedding of `mcd_read`.  `len` is the caller's `len`, `u` the outcome of
the user-space copy (consulted only when a copy is made).  The result is the
new record, the returned `ssize_t` and the bytes delivered to the caller. -/
def mcd_read (s : my_char_dev) (len u : Nat) : my_char_dev × Int × List Nat :=
  if s.buf_len = 0 then
    (s, 0, [])
  else
    let bytes_to_copy := min len s.buf_len
    let r := raw_copy_to_user s.buf bytes_to_copy u
    if r.2 ≠ 0 then
      (s, toSsize (sizeSub bytes_to_copy r.2), r.1)
    else
      ({ s with buf_len := 0 }, toSsize bytes_to_copy, r.1)

/-- Embedding of `mcd_write`.  `buf` is the caller's data, its length the
caller's `len`; `u` is the outcome of the user-space copy.  The result is the
new record and the returned `ssize_t`. -/
def mcd_write (s : my_char_dev) (buf : List Nat) (u : Nat) : my_char_dev × Int :=
  let len := buf.length
  if len ≥ BUFFER_SIZE then
    (s, -ENOSPC)
  else
    let r := raw_copy_from_user s.buf buf len u
    if r.2 ≠ 0 then
      ({ s with buf := r.1, buf_len := 0 }, toSsize (sizeSub len r.2))
    else
      ({ s with buf := r.1, buf_len := len }, toSsize len)

/-! ## The configuration attribute -/

/-- A byte is an ASCII decimal digit, `'0'` to `'9'`. -/
def isDecDigit (c : Nat) : Bool := decide (48 ≤ c) && decide (c ≤ 57)

/-- The digit loop of the kernel's number parser in base 10: accumulate
`res * 10 + val` in an `unsigned long` while the next byte is a decimal
digit, counting the bytes consumed.  The end of the list stands for the
terminating NUL. -/
def parse_integer_loop (res rv : Nat) : List Nat → Nat × Nat
  | [] => (res, rv)
  | c :: cs =>
    if isDecDigit c then
      parse_integer_loop ((res * 10 + (c - 48)) % SIZE_MOD) (rv + 1) cs
    else
      (res, rv)

/-- Modelled from the spec: `simple_strtoul` is a kernel library routine, not
part of the source file.  With base 10 it parses the text as an unsigned
integer: it reads the leading run of decimal digits (no sign, no leading
blanks), wrapping on overflow of `unsigned long`.  The result is the value
and the number of bytes consumed, so that `ptr == buf` is `consumed = 0`. -/
def simple_strtoul (buf : List Nat) : Nat × Nat :=
  parse_integer_loop 0 0 buf

/-- Embedding of `my_char_dev_sysfs_store`.  `buf` is the text written to the
attribute, its length the `len` argument. -/
def my_char_dev_sysfs_store (s : my_char_dev) (buf : List Nat) : my_char_dev × Int :=
  let len := buf.length
  if len = 0 then
    (s, 0)
  else
    let r := simple_strtoul buf
    if r.2 = 0 then
      (s, -EINVAL)
    else if r.1 < MIN_USERS ∨ r.1 > MAX_USERS then
      (s, -EINVAL)
    else
      ({ s with max_users := r.1 % U8_MOD }, toSsize len)

/-- The bytes of a text. -/
def bytesOf (t : String) : List Nat := t.toList.map Char.toNat

/-! ## Reading a decimal prefix, independently of the parser -/

/-- The leading run of decimal digits of a text. -/
def leadingDigits (buf : List Nat) : List Nat := buf.takeWhile isDecDigit

/-- The number written by a run of decimal digits, most significant first. -/
def decimalValue (ds : List Nat) : Nat :=
  Nat.ofDigits 10 (ds.reverse.map (fun c => c - 48))

/-! ## Sequences of admission calls -/

/-- A call on the admission gate. -/
inductive AdmOp where
  | acquire
  | release
  deriving DecidableEq, Repr

/-- One admission call applied to the record. -/
def admStep (s : my_char_dev) : AdmOp → my_char_dev
  | .acquire => (mcd_open s).1
  | .release => (mcd_release s).1

/-- A sequence of admission calls applied to the record, first call first. -/
def admRun (s : my_char_dev) (ops : List AdmOp) : my_char_dev :=
  ops.foldl admStep s

/-- The ledger of open sessions kept outside the device, as an unbounded
integer: one more for each `mcd_open` that returned 0, one less for each
`mcd_release`. -/
def sessionLedger (s : my_char_dev) (k : Int) : List AdmOp → Int
  | [] => k
  | .acquire :: ops =>
    sessionLedger (mcd_open s).1 (if (mcd_open s).2 = 0 then k + 1 else k) ops
  | .release :: ops => sessionLedger (mcd_release s).1 (k - 1) ops

/-- Every `mcd_release` of the sequence closes a session that an earlier
successful `mcd_open` opened: the ledger is positive whenever a release is
issued. -/
def releasesPaired (s : my_char_dev) (k : Int) : List AdmOp → Bool
  | [] => true
  | .acquire :: ops =>
    releasesPaired (mcd_open s).1 (if (mcd_open s).2 = 0 then k + 1 else k) ops
  | .release :: ops => decide (0 < k) && releasesPaired (mcd_release s).1 (k - 1) ops

/-- `n` consecutive `mcd_release` calls. -/
def releaseN : Nat → my_char_dev → my_char_dev
  | 0, s => s
  | n + 1, s => releaseN n (mcd_release s).1

/-! ## Sequences of buffer calls -/

/-- A call on the buffer: a write of `d` whose copy leaves `u` bytes
untransferred, or a read of up to `len` bytes whose copy leaves `u` bytes
untransferred. -/
inductive BufOp where
  | write (d : List Nat) (u : Nat)
  | read (len u : Nat)
  deriving DecidableEq, Repr

/-- One buffer call applied to the record. -/
def bufStep (s : my_char_dev) : BufOp → my_char_dev
  | .write d u => (mcd_write s d u).1
  | .read len u => (mcd_read s len u).1

/-- A sequence of buffer calls applied to the record, first call first. -/
def bufRun (s : my_char_dev) (ops : List BufOp) : my_char_dev :=
  ops.foldl bufStep s

/-- The data model's reading of the buffer, in its own words: "a write
succeeded since the last successful read (or since init)".  A write succeeds
when it is accepted and every byte is transferred; a read succeeds when the
buffer is empty (0 bytes, no error) or every byte is transferred.  `flag` is
the value before the sequence. -/
def writeSinceRead (s : my_char_dev) (flag : Bool) : List BufOp → Bool
  | [] => flag
  | .write d u :: ops =>
    writeSinceRead (mcd_write s d u).1
      (if d.length < BUFFER_SIZE ∧ u = 0 then true else flag) ops
  | .read len u :: ops =>
    writeSinceRead (mcd_read s len u).1
      (if s.buf_len = 0 ∨ u = 0 then false else flag) ops

/-- The reading of the buffer that the driver keeps: the latest accepted
write (shorter than the capacity) was not empty and was fully transferred, and
no successful read has followed it.  It differs from `writeSinceRead` on
accepted writes only: an empty or partly transferred one clears the flag. -/
def unreadWrite (s : my_char_dev) (flag : Bool) : List BufOp → Bool
  | [] => flag
  | .write d u :: ops =>
    unreadWrite (mcd_write s d u).1
      (if d.length < BUFFER_SIZE then decide (u = 0 ∧ 0 < d.length) else flag) ops
  | .read len u :: ops =>
    unreadWrite (mcd_read s len u).1
      (if s.buf_len = 0 ∨ u = 0 then false else flag) ops

/-! ## Sequences of calls on the whole device -/

/-- A call on the device or on its configuration attribute. -/
inductive DevOp where
  | open
  | release
  | read (len u : Nat)
  | write (d : List Nat) (u : Nat)
  | store (text : List Nat)
  deriving DecidableEq, Repr

/-- One call applied to the record. -/
def devStep (s : my_char_dev) : DevOp → my_char_dev
  | .open => (mcd_open s).1
  | .release => (mcd_release s).1
  | .read len u => (mcd_read s len u).1
  | .write d u => (mcd_write s d u).1
  | .store text => (my_char_dev_sysfs_store s text).1

/-- A sequence of calls applied to the record, first call first. -/
def devRun (s : my_char_dev) (ops : List DevOp) : my_char_dev :=
  ops.foldl devStep s

/-! ## Module load -/

/-- Largest errno that an error pointer can carry (`MAX_ERRNO`). -/
def MAX_ERRNO : Nat := 4095

/-- Number of values of a `uint32_t`. -/
def U32_MOD : Nat := 2 ^ 32

/-- The kernel's `IS_ERR_OR_NULL` on a pointer given by its 64-bit pattern:
`NULL`, or one of the top `MAX_ERRNO` addresses. -/
def IS_ERR_OR_NULL (p : Nat) : Bool :=
  decide (p = 0) || decide (SIZE_MOD - MAX_ERRNO ≤ p % SIZE_MOD)

/-- Conversion of a `long` to `int`: two's complement on 32 bits. -/
def longToInt (x : Int) : Int :=
  (x + 2 ^ 31) % 2 ^ 32 - 2 ^ 31

/-- The kernel's `PTR_ERR` (the pointer read as a `long`), returned through
an `int`. -/
def PTR_ERR (p : Nat) : Int := longToInt (toSsize p)

/-- What the kernel holds for the driver: the registered character device
number, the device class, the device node (these three make the device
channel), the debugfs entry (diagnostic attribute) and the class attribute
file (configuration attribute). -/
structure Published where
  chrdev : Bool
  cls : Bool
  device : Bool
  dbgfs : Bool
  sysfs : Bool
  deriving DecidableEq, Repr

/-- Nothing is published: the situation before the module is loaded. -/
def unpublished : Published :=
  { chrdev := false, cls := false, device := false, dbgfs := false, sysfs := false }

/-- Modelled from the spec: the registration services of the kernel
(`register_chrdev`, `class_create`, `device_create`, `debugfs_create_u8`,
`class_create_file`) are external collaborators, not part of the source file.
Each publishes one endpoint or fails; this record holds what each returns
during one load: a major number or negative errno, three pointers by their
bit pattern, and a status. -/
structure LoadOutcomes where
  register_chrdev : Int
  class_create : Nat
  device_create : Nat
  debugfs_create_u8 : Nat
  class_create_file : Int
  deriving DecidableEq, Repr

/-- Embedding of `my_char_dev_init`: register the device number, create the
class, create the device node; a failure of a later step undoes the earlier
ones (`dev_err:` then `class_err:`) before the status is returned. -/
def my_char_dev_init (s : my_char_dev) (k : Published) (o : LoadOutcomes) :
    my_char_dev × Published × Int :=
  let major := o.register_chrdev
  if major < 0 then
    (s, k, major)
  else
    let s1 := { s with major_number := major.toNat % U32_MOD }
    let k1 := { k with chrdev := true }
    if IS_ERR_OR_NULL o.class_create then
      (s1, { k1 with chrdev := false }, PTR_ERR o.class_create)
    else
      let s2 := { s1 with «class» := o.class_create }
      let k2 := { k1 with cls := true }
      if IS_ERR_OR_NULL o.device_create then
        (s2, { k2 with cls := false, chrdev := false }, PTR_ERR o.device_create)
      else
        ({ s2 with dev := o.device_create }, { k2 with device := true }, 0)

/-- Embedding of `mcd_dbgfs_init`: create the debugfs entry on `cur_users`. -/
def mcd_dbgfs_init (s : my_char_dev) (k : Published) (o : LoadOutcomes) :
    my_char_dev × Published × Int :=
  if IS_ERR_OR_NULL o.debugfs_create_u8 then
    (s, k, PTR_ERR o.debugfs_create_u8)
  else
    ({ s with dbgfs_entry := o.debugfs_create_u8 }, { k with dbgfs := true }, 0)

/-- Embedding of `mcd_sysfs_init`: create the class attribute file. -/
def mcd_sysfs_init (s : my_char_dev) (k : Published) (o : LoadOutcomes) :
    my_char_dev × Published × Int :=
  if o.class_create_file ≠ 0 then
    (s, k, o.class_create_file)
  else
    (s, { k with sysfs := true }, 0)

/-- Embedding of `mcd_init`: the three initialisations in order, returning
the first non-zero status as it is. -/
def mcd_init (s : my_char_dev) (k : Published) (o : LoadOutcomes) :
    my_char_dev × Published × Int :=
  let r1 := my_char_dev_init s k o
  if r1.2.2 ≠ 0 then
    r1
  else
    let r2 := mcd_dbgfs_init r1.1 r1.2.1 o
    if r2.2.2 ≠ 0 then
      r2
    else
      let r3 := mcd_sysfs_init r2.1 r2.2.1 o
      if r3.2.2 ≠ 0 then
        r3
      else
        (r3.1, r3.2.1, 0)

/-- The kernel's `ERR_PTR`: the bit pattern of the pointer that carries the
status `error`. -/
def ERR_PTR (error : Int) : Nat := (error % (SIZE_MOD : Int)).toNat

/-- Linux errno "no such device". -/
def ENODEV : Int := 19

/-- Linux errno "out of memory". -/
def ENOMEM : Int := 12

/-- A load in which the device channel is published and the debugfs entry
cannot be created (debugfs not available: `ERR_PTR(-ENODEV)`). -/
def loadDbgfsFails : LoadOutcomes :=
  { register_chrdev := 240
    class_create := 4096
    device_create := 8192
    debugfs_create_u8 := ERR_PTR (-ENODEV)
    class_create_file := 0 }

/-- A load in which the device channel and the debugfs entry are published
and the class attribute file cannot be created (`-ENOMEM`). -/
def loadSysfsFails : LoadOutcomes :=
  { register_chrdev := 240
    class_create := 4096
    device_create := 8192
    debugfs_create_u8 := 12288
    class_create_file := -ENOMEM }

/-! ## Admission control -/

/-- C1: `mcd_open` behaves as acquire.  When `cur_users >= max_users` it
returns `-EBUSY` and the record is unchanged; otherwise it returns 0 and the
new `cur_users` is the old one plus one, every other field being kept. -/
theorem mcd_open_acquire (s : my_char_dev) (hfit : counters_fit s) :
    (s.cur_users ≥ s.max_users → mcd_open s = (s, -EBUSY)) ∧
    (s.cur_users < s.max_users →
      (mcd_open s).2 = 0 ∧ (mcd_open s).1.cur_users = s.cur_users + 1 ∧
      (mcd_open s).1 = { s with cur_users := s.cur_users + 1 }) := by
  obtain ⟨hmax, _⟩ := hfit
  unfold U8_MOD at hmax
  refine ⟨fun hge => ?_, fun hlt => ?_⟩
  · simp [mcd_open, hge]
  · have hnot : ¬ s.cur_users ≥ s.max_users := by omega
    have hmod : (s.cur_users + 1) % U8_MOD = s.cur_users + 1 := by
      unfold U8_MOD; omega
    simp [mcd_open, hnot, hmod]

/-- Witness of C1 on the record at load time. -/
theorem mcd_open_acquire_witness :
    counters_fit mcd ∧
    ((mcd.cur_users ≥ mcd.max_users → mcd_open mcd = (mcd, -EBUSY)) ∧
     (mcd.cur_users < mcd.max_users →
       (mcd_open mcd).2 = 0 ∧ (mcd_open mcd).1.cur_users = mcd.cur_users + 1 ∧
       (mcd_open mcd).1 = { mcd with cur_users := mcd.cur_users + 1 })) :=
  ⟨by decide, mcd_open_acquire mcd (by decide)⟩

/-- A run over a sequence that starts with a call is the run of the rest from
the record after that call. -/
theorem admRun_cons (s : my_char_dev) (op : AdmOp) (ops : List AdmOp) :
    admRun s (op :: ops) = admRun (admStep s op) ops := rfl

/-- Invariant of paired runs: from a record whose counter equals the ledger and is
within the limit, a paired sequence keeps both facts after every prefix. -/
theorem admRun_paired_invariant (ops : List AdmOp) :
    ∀ (s : my_char_dev) (k : Int), s.max_users < U8_MOD → (s.cur_users : Int) = k →
      s.cur_users ≤ s.max_users → releasesPaired s k ops = true → ∀ n : Nat,
      (admRun s (ops.take n)).max_users = s.max_users ∧
      (admRun s (ops.take n)).cur_users ≤ s.max_users ∧
      ((admRun s (ops.take n)).cur_users : Int) = sessionLedger s k (ops.take n) := by
  induction ops with
  | nil =>
    intro s k _ hk hle _ n
    simp [admRun, sessionLedger, hk, hle]
  | cons op ops ih =>
    intro s k hmax hk hle hp n
    cases n with
    | zero => simp [admRun, sessionLedger, hk, hle]
    | succ n =>
      rw [List.take_succ_cons, admRun_cons]
      unfold U8_MOD at hmax
      cases op with
      | acquire =>
        simp only [releasesPaired] at hp
        simp only [sessionLedger, admStep]
        by_cases hge : s.cur_users ≥ s.max_users
        · have ho : mcd_open s = (s, -EBUSY) := by simp [mcd_open, hge]
          rw [ho] at hp ⊢
          have hne : ¬ (-EBUSY = 0) := by decide
          simp only [hne, if_false] at hp ⊢
          exact ih s k hmax hk hle hp n
        · have hmod : (s.cur_users + 1) % U8_MOD = s.cur_users + 1 := by
            unfold U8_MOD; omega
          have ho : mcd_open s = ({ s with cur_users := s.cur_users + 1 }, 0) := by
            simp [mcd_open, hge, hmod]
          rw [ho] at hp ⊢
          simp only [if_true] at hp ⊢
          have h := ih { s with cur_users := s.cur_users + 1 } (k + 1) hmax
            (by simp [hk]) (by simp only; omega) hp n
          simpa using h
      | release =>
        simp only [releasesPaired, Bool.and_eq_true, decide_eq_true_eq] at hp
        obtain ⟨hpos, hp⟩ := hp
        simp only [sessionLedger, admStep]
        have hmod : (s.cur_users + U8_MOD - 1) % U8_MOD = s.cur_users - 1 := by
          unfold U8_MOD; omega
        have hr : mcd_release s = ({ s with cur_users := s.cur_users - 1 }, 0) := by
          simp [mcd_release, hmod]
        rw [hr] at hp ⊢
        have h := ih { s with cur_users := s.cur_users - 1 } (k - 1) hmax
          (by simp only; omega) (by simp only; omega) hp n
        simpa using h

/-- C2 (as stated, refuted): one `mcd_release` on the record at load time
wraps the 8-bit counter to 255, above the limit 16. -/
theorem admission_unpaired_release_exceeds :
    (admRun mcd [AdmOp.release]).cur_users = 255 ∧
    (admRun mcd [AdmOp.release]).max_users = 16 ∧
    ¬ ((admRun mcd [AdmOp.release]).cur_users ≤ (admRun mcd [AdmOp.release]).max_users) := by
  decide

/-- C2 (amended): for every sequence of `mcd_open` and `mcd_release` calls on
the record at load time in which each release closes a session opened by an
earlier successful open, after every step `cur_users` is at most `max_users`
(still 16) and equals the unbounded ledger of open sessions, which is never
negative: the counter has not wrapped. -/
theorem admission_bounded_when_paired (ops : List AdmOp)
    (hpaired : releasesPaired mcd 0 ops = true) (n : Nat) :
    (admRun mcd (ops.take n)).cur_users ≤ (admRun mcd (ops.take n)).max_users ∧
    (admRun mcd (ops.take n)).max_users = 16 ∧
    ((admRun mcd (ops.take n)).cur_users : Int) = sessionLedger mcd 0 (ops.take n) ∧
    0 ≤ sessionLedger mcd 0 (ops.take n) := by
  have h := admRun_paired_invariant ops mcd 0 (by decide) (by decide) (by decide) hpaired n
  obtain ⟨h1, h2, h3⟩ := h
  have hm : mcd.max_users = 16 := by decide
  refine ⟨by omega, by omega, h3, ?_⟩
  rw [← h3]
  exact Int.natCast_nonneg _

/-- Witness of C2 (amended): open, open, release, open, observed after three
calls. -/
theorem admission_bounded_when_paired_witness :
    releasesPaired mcd 0 [AdmOp.acquire, AdmOp.acquire, AdmOp.release, AdmOp.acquire] = true ∧
    (admRun mcd ([AdmOp.acquire, AdmOp.acquire, AdmOp.release, AdmOp.acquire].take 3)).cur_users
      ≤ (admRun mcd
          ([AdmOp.acquire, AdmOp.acquire, AdmOp.release, AdmOp.acquire].take 3)).max_users :=
  ⟨by decide,
   (admission_bounded_when_paired
      [AdmOp.acquire, AdmOp.acquire, AdmOp.release, AdmOp.acquire] (by decide) 3).1⟩

/-! ## Buffer transfer -/

/-- A `size_t` value below `2 ^ 63` is returned unchanged through `ssize_t`. -/
theorem toSsize_of_lt (n : Nat) (h : n < 2 ^ 63) : toSsize n = (n : Int) := by
  have hmod : n % SIZE_MOD = n := by
    apply Nat.mod_eq_of_lt
    unfold SIZE_MOD
    omega
  unfold toSsize
  rw [hmod, if_pos h]

/-- Subtraction on `size_t` is exact when the result is not negative. -/
theorem sizeSub_of_le (a b : Nat) (hb : b ≤ a) (ha : a < SIZE_MOD) :
    sizeSub a b = a - b := by
  unfold sizeSub
  unfold SIZE_MOD at ha ⊢
  have h1 : a % 2 ^ 64 = a := Nat.mod_eq_of_lt ha
  have h2 : b % 2 ^ 64 = b := Nat.mod_eq_of_lt (by omega)
  rw [h1, h2]
  omega

/-- A write below the capacity whose copy moves every byte stores the data at
the front of the buffer, records its length and returns it. -/
theorem mcd_write_full (s : my_char_dev) (d : List Nat) (h : d.length < BUFFER_SIZE) :
    mcd_write s d 0 =
      ({ s with buf := d ++ s.buf.drop d.length, buf_len := d.length }, (d.length : Int)) := by
  have hnot : ¬ d.length ≥ BUFFER_SIZE := by omega
  have hs : toSsize d.length = (d.length : Int) := by
    apply toSsize_of_lt
    unfold BUFFER_SIZE at h
    omega
  simp [mcd_write, raw_copy_from_user, hnot, hs]

/-- A read on an empty buffer returns 0 bytes and changes nothing, whatever
the length asked for. -/
theorem mcd_read_empty (s : my_char_dev) (len u : Nat) (h : s.buf_len = 0) :
    mcd_read s len u = (s, 0, []) := by
  simp [mcd_read, h]

/-- A read on a non-empty buffer whose copy moves every byte delivers the
leading `min len buf_len` bytes, returns that count and clears `buf_len`. -/
theorem mcd_read_full (s : my_char_dev) (len : Nat) (h0 : s.buf_len ≠ 0)
    (hfit : s.buf_len < 2 ^ 63) :
    mcd_read s len 0 =
      ({ s with buf_len := 0 }, ((min len s.buf_len : Nat) : Int),
        s.buf.take (min len s.buf_len)) := by
  have hs : toSsize (min len s.buf_len) = ((min len s.buf_len : Nat) : Int) := by
    apply toSsize_of_lt
    have : min len s.buf_len ≤ s.buf_len := Nat.min_le_right _ _
    omega
  simp [mcd_read, raw_copy_to_user, h0, hs]

/-- A fully copied write of `d` (shorter than the capacity) followed by a
fully copied read with room for all of `d` delivers `d`, returns its length
and leaves the buffer empty. -/
theorem mcd_write_then_read (s : my_char_dev) (d : List Nat) (max_len : Nat)
    (hL : d.length < BUFFER_SIZE) (hmax : d.length ≤ max_len) :
    mcd_read (mcd_write s d 0).1 max_len 0 =
      ({ s with buf := d ++ s.buf.drop d.length, buf_len := 0 }, (d.length : Int), d) := by
  rw [mcd_write_full s d hL]
  by_cases h0 : d.length = 0
  · have hd : d = [] := List.length_eq_zero.mp h0
    subst hd
    simp [mcd_read]
  · have hmin : min max_len d.length = d.length := Nat.min_eq_right hmax
    have hfit : d.length < 2 ^ 63 := by
      unfold BUFFER_SIZE at hL
      omega
    rw [mcd_read_full _ max_len (by simpa using h0) (by simpa using hfit)]
    simp only [hmin]
    refine Prod.ext rfl (Prod.ext rfl ?_)
    simp

/-- C3: round trip.  Writing `d` of length `L < 1024` with a fully successful
copy returns `L`; the following read with `max_len >= L` and a fully
successful copy returns `L` and delivers exactly `d`; one more read, before
any new write, returns 0 bytes. -/
theorem write_read_round_trip (s : my_char_dev) (d : List Nat) (max_len : Nat)
    (hL : d.length < BUFFER_SIZE) (hmax : d.length ≤ max_len) :
    (mcd_write s d 0).2 = (d.length : Int) ∧
    (mcd_read (mcd_write s d 0).1 max_len 0).2.1 = (d.length : Int) ∧
    (mcd_read (mcd_write s d 0).1 max_len 0).2.2 = d ∧
    ∀ len u : Nat,
      (mcd_read (mcd_read (mcd_write s d 0).1 max_len 0).1 len u).2 = (0, []) := by
  rw [mcd_write_then_read s d max_len hL hmax]
  refine ⟨by rw [mcd_write_full s d hL], rfl, rfl, ?_⟩
  intro len u
  rw [mcd_read_empty _ len u rfl]

/-- Witness of C3: the five bytes of "hello" written to the record at load
time and read back with room for ten. -/
theorem write_read_round_trip_witness :
    (bytesOf "hello").length < BUFFER_SIZE ∧ (bytesOf "hello").length ≤ 10 ∧
    (mcd_read (mcd_write mcd (bytesOf "hello") 0).1 10 0).2.2 = bytesOf "hello" :=
  ⟨by decide, by decide,
   (write_read_round_trip mcd (bytesOf "hello") 10 (by decide) (by decide)).2.2.1⟩

/-- C4: a write of length `L >= 1024` fails with `-ENOSPC` and leaves the whole
record, `buf` and `buf_len` included, unchanged, whatever the copy would have
done; a write of length exactly 1023 is accepted: fully copied it returns
1023 and sets `buf_len = 1023`, and with any copy outcome `u <= 1023` its
result is the non-negative count `1023 - u`, never `-ENOSPC`. -/
theorem mcd_write_rejects_at_capacity (s : my_char_dev) (d : List Nat) (u : Nat) :
    (BUFFER_SIZE ≤ d.length → mcd_write s d u = (s, -ENOSPC)) ∧
    (d.length = 1023 →
      (mcd_write s d 0).2 = 1023 ∧ (mcd_write s d 0).1.buf_len = 1023 ∧
      (u ≤ 1023 → (mcd_write s d u).2 = ((1023 - u : Nat) : Int) ∧
        (mcd_write s d u).2 ≠ -ENOSPC)) := by
  refine ⟨fun h => ?_, fun h => ?_⟩
  · simp [mcd_write, h]
  · have hlt : d.length < BUFFER_SIZE := by unfold BUFFER_SIZE; omega
    rw [mcd_write_full s d hlt]
    refine ⟨by simp [h], by simp [h], fun hu => ?_⟩
    have hval : (mcd_write s d u).2 = ((1023 - u : Nat) : Int) := by
      have hnot : ¬ d.length ≥ BUFFER_SIZE := by omega
      by_cases hz : u = 0
      · subst hz
        rw [mcd_write_full s d hlt]
        simp [h]
      · have hsub : sizeSub d.length u = 1023 - u := by
          rw [sizeSub_of_le _ _ (by omega) (by unfold SIZE_MOD; omega), h]
        have hs : toSsize (1023 - u) = ((1023 - u : Nat) : Int) :=
          toSsize_of_lt _ (by omega)
        simp [mcd_write, raw_copy_from_user, hnot, hz, hsub, hs]
    refine ⟨hval, ?_⟩
    rw [hval]
    unfold ENOSPC
    omega

/-- Witness of C4: 1024 bytes are refused, 1023 bytes are taken. -/
theorem mcd_write_rejects_at_capacity_witness :
    BUFFER_SIZE ≤ (List.replicate 1024 7).length ∧
    mcd_write mcd (List.replicate 1024 7) 0 = (mcd, -ENOSPC) ∧
    (List.replicate 1023 7).length = 1023 ∧
    (mcd_write mcd (List.replicate 1023 7) 0).2 = 1023 :=
  ⟨by rw [List.length_replicate]; decide,
   (mcd_write_rejects_at_capacity mcd (List.replicate 1024 7) 0).1
     (by rw [List.length_replicate]; decide),
   List.length_replicate 1023 7,
   ((mcd_write_rejects_at_capacity mcd (List.replicate 1023 7) 0).2
     (List.length_replicate 1023 7)).1⟩

/-- C5: last writer wins.  After a fully copied write of `d1` and then a fully
copied write of `d2` (both shorter than 1024), a fully copied read with
`max_len >= L2` returns `L2` and delivers exactly `d2`: no byte of `d1`
reaches the caller, whatever the two lengths are. -/
theorem last_writer_wins (s : my_char_dev) (d1 d2 : List Nat) (max_len : Nat)
    (h1 : d1.length < BUFFER_SIZE) (h2 : d2.length < BUFFER_SIZE)
    (hmax : d2.length ≤ max_len) :
    (mcd_write s d1 0).2 = (d1.length : Int) ∧
    (mcd_write (mcd_write s d1 0).1 d2 0).2 = (d2.length : Int) ∧
    (mcd_read (mcd_write (mcd_write s d1 0).1 d2 0).1 max_len 0).2 =
      ((d2.length : Int), d2) := by
  refine ⟨by rw [mcd_write_full s d1 h1], by rw [mcd_write_full _ d2 h2], ?_⟩
  rw [mcd_write_then_read _ d2 max_len h2 hmax]

/-- Witness of C5: "hello" overwritten by the shorter "ab". -/
theorem last_writer_wins_witness :
    (bytesOf "hello").length < BUFFER_SIZE ∧ (bytesOf "ab").length < BUFFER_SIZE ∧
    (bytesOf "ab").length ≤ 10 ∧
    (mcd_read (mcd_write (mcd_write mcd (bytesOf "hello") 0).1 (bytesOf "ab") 0).1 10 0).2 =
      (((bytesOf "ab").length : Int), bytesOf "ab") :=
  ⟨by decide, by decide, by decide,
   (last_writer_wins mcd (bytesOf "hello") (bytesOf "ab") 10
      (by decide) (by decide) (by decide)).2.2⟩

/-- C10: partial write.  When the copy of a write of length `L < 1024` leaves
`U` bytes untransferred, `0 < U <= L`, `mcd_write` sets `buf_len = 0` and
returns the short count `L - U`; the next read returns 0 bytes, whatever was
stored before. -/
theorem mcd_write_short_transfer (s : my_char_dev) (d : List Nat) (U : Nat)
    (hL : d.length < BUFFER_SIZE) (hpos : 0 < U) (hle : U ≤ d.length) :
    (mcd_write s d U).1.buf_len = 0 ∧
    (mcd_write s d U).2 = ((d.length - U : Nat) : Int) ∧
    ∀ len u : Nat, (mcd_read (mcd_write s d U).1 len u).2 = (0, []) := by
  unfold BUFFER_SIZE at hL
  have hnot : ¬ d.length ≥ BUFFER_SIZE := by unfold BUFFER_SIZE; omega
  have hz : U ≠ 0 := by omega
  have hsub : sizeSub d.length U = d.length - U :=
    sizeSub_of_le _ _ hle (by unfold SIZE_MOD; omega)
  have hs : toSsize (d.length - U) = ((d.length - U : Nat) : Int) :=
    toSsize_of_lt _ (by omega)
  have hw : mcd_write s d U =
      ({ s with buf := d.take (d.length - U) ++ s.buf.drop (d.length - U), buf_len := 0 },
        ((d.length - U : Nat) : Int)) := by
    simp [mcd_write, raw_copy_from_user, hnot, hz, hsub, hs]
  rw [hw]
  refine ⟨rfl, rfl, fun len u => ?_⟩
  rw [mcd_read_empty _ len u rfl]

/-- Witness of C10: "hello" written over a stored "abc", two bytes failing. -/
theorem mcd_write_short_transfer_witness :
    (bytesOf "hello").length < BUFFER_SIZE ∧ 0 < 2 ∧ 2 ≤ (bytesOf "hello").length ∧
    (mcd_write (mcd_write mcd (bytesOf "abc") 0).1 (bytesOf "hello") 2).1.buf_len = 0 ∧
    (mcd_write (mcd_write mcd (bytesOf "abc") 0).1 (bytesOf "hello") 2).2 =
      (((bytesOf "hello").length - 2 : Nat) : Int) :=
  ⟨by decide, by decide, by decide,
   (mcd_write_short_transfer (mcd_write mcd (bytesOf "abc") 0).1 (bytesOf "hello") 2
      (by decide) (by decide) (by decide)).1,
   (mcd_write_short_transfer (mcd_write mcd (bytesOf "abc") 0).1 (bytesOf "hello") 2
      (by decide) (by decide) (by decide)).2.1⟩

/-! ## The parser against the decimal reading -/

/-- Reducing the accumulator early does not change the reduced result. -/
theorem mod_mul_add_mod (a b c m : Nat) : (a % m * b + c) % m = (a * b + c) % m := by
  rw [Nat.add_mod, Nat.mul_mod, Nat.mod_mod, ← Nat.mul_mod, ← Nat.add_mod]

/-- The value of a digit run splits at its most significant digit. -/
theorem decimalValue_cons (c : Nat) (ds : List Nat) :
    decimalValue (c :: ds) = (c - 48) * 10 ^ ds.length + decimalValue ds := by
  unfold decimalValue
  rw [List.reverse_cons, List.map_append, Nat.ofDigits_append]
  simp [Nat.ofDigits_singleton]
  ring

/-- The digit loop consumes exactly the leading digit run and computes its
decimal value on top of the accumulator, reduced to an `unsigned long`. -/
theorem parse_integer_loop_eq (buf : List Nat) :
    ∀ res rv : Nat, res < SIZE_MOD →
      parse_integer_loop res rv buf =
        ((res * 10 ^ (leadingDigits buf).length + decimalValue (leadingDigits buf)) % SIZE_MOD,
          rv + (leadingDigits buf).length) := by
  induction buf with
  | nil =>
    intro res rv hres
    simp [parse_integer_loop, leadingDigits, decimalValue, Nat.mod_eq_of_lt hres]
  | cons c cs ih =>
    intro res rv hres
    by_cases hc : isDecDigit c = true
    · have hld : leadingDigits (c :: cs) = c :: leadingDigits cs := by
        simp [leadingDigits, List.takeWhile_cons, hc]
      have hpos : 0 < SIZE_MOD := by unfold SIZE_MOD; omega
      rw [hld, decimalValue_cons]
      simp only [parse_integer_loop, hc, if_true]
      rw [ih _ _ (Nat.mod_lt _ hpos), mod_mul_add_mod, List.length_cons]
      refine Prod.ext ?_ ?_
      · simp only
        congr 1
        ring
      · simp only
        omega
    · have hld : leadingDigits (c :: cs) = [] := by
        simp [leadingDigits, List.takeWhile_cons, hc]
      rw [hld]
      simp [parse_integer_loop, hc, decimalValue, Nat.mod_eq_of_lt hres]

/-- On a text whose leading digit run is not empty and whose value fits an
`unsigned long`, `simple_strtoul` returns that value and consumes at least one
byte. -/
theorem simple_strtoul_eq (buf : List Nat) (hdig : leadingDigits buf ≠ [])
    (hfit : decimalValue (leadingDigits buf) < SIZE_MOD) :
    (simple_strtoul buf).1 = decimalValue (leadingDigits buf) ∧
    (simple_strtoul buf).2 ≠ 0 := by
  unfold simple_strtoul
  rw [parse_integer_loop_eq buf 0 0 (by unfold SIZE_MOD; omega)]
  refine ⟨?_, ?_⟩
  · simp [Nat.mod_eq_of_lt hfit]
  · simpa [List.length_eq_zero] using hdig

/-- The store on a text that reads as a number within `[1, 16]`. -/
theorem sysfs_store_in_range (s : my_char_dev) (buf : List Nat)
    (hdig : leadingDigits buf ≠ [])
    (hfit : decimalValue (leadingDigits buf) < SIZE_MOD)
    (hlen : buf.length < 2 ^ 63)
    (hlo : 1 ≤ decimalValue (leadingDigits buf))
    (hhi : decimalValue (leadingDigits buf) ≤ 16) :
    my_char_dev_sysfs_store s buf =
      ({ s with max_users := decimalValue (leadingDigits buf) }, (buf.length : Int)) := by
  obtain ⟨hv, hc⟩ := simple_strtoul_eq buf hdig hfit
  have hne : buf.length ≠ 0 := by
    intro h0
    have hb : buf = [] := List.length_eq_zero.mp h0
    subst hb
    exact hdig rfl
  have hrange : ¬ ((simple_strtoul buf).1 < MIN_USERS ∨ (simple_strtoul buf).1 > MAX_USERS) := by
    rw [hv]
    unfold MIN_USERS MAX_USERS
    omega
  have hmod : (simple_strtoul buf).1 % U8_MOD = decimalValue (leadingDigits buf) := by
    rw [hv]
    unfold U8_MOD
    omega
  simp only [my_char_dev_sysfs_store, hne, hc, hrange, if_false, hmod,
    toSsize_of_lt _ hlen]

/-- The store on a text that reads as a number outside `[1, 16]`. -/
theorem sysfs_store_out_of_range (s : my_char_dev) (buf : List Nat)
    (hdig : leadingDigits buf ≠ [])
    (hfit : decimalValue (leadingDigits buf) < SIZE_MOD)
    (hout : decimalValue (leadingDigits buf) = 0 ∨ 17 ≤ decimalValue (leadingDigits buf)) :
    my_char_dev_sysfs_store s buf = (s, -EINVAL) := by
  obtain ⟨hv, hc⟩ := simple_strtoul_eq buf hdig hfit
  have hne : buf.length ≠ 0 := by
    intro h0
    have hb : buf = [] := List.length_eq_zero.mp h0
    subst hb
    exact hdig rfl
  have hrange : (simple_strtoul buf).1 < MIN_USERS ∨ (simple_strtoul buf).1 > MAX_USERS := by
    rw [hv]
    unfold MIN_USERS MAX_USERS
    omega
  simp only [my_char_dev_sysfs_store, hne, hc, hrange, if_false, if_true]

/-- `k` releases from a count of at least `k` lower the count by `k` and touch
nothing else. -/
theorem releaseN_eq (k : Nat) :
    ∀ s : my_char_dev, s.cur_users < U8_MOD → k ≤ s.cur_users →
      releaseN k s = { s with cur_users := s.cur_users - k } := by
  induction k with
  | zero =>
    intro s _ _
    simp [releaseN]
  | succ k ih =>
    intro s hfit hk
    unfold U8_MOD at hfit
    have hmod : (s.cur_users + U8_MOD - 1) % U8_MOD = s.cur_users - 1 := by
      unfold U8_MOD; omega
    have hr : (mcd_release s).1 = { s with cur_users := s.cur_users - 1 } := by
      simp [mcd_release, hmod]
    simp only [releaseN]
    rw [hr, ih _ (by unfold U8_MOD; simp only; omega) (by simp only; omega)]
    simp only
    congr 1
    omega

/-! ## The configuration attribute: claims -/

/-- C6: on a non-empty text that starts with decimal digits of value `v`
fitting an `unsigned long`, `my_char_dev_sysfs_store` succeeds exactly when
`1 <= v <= 16`, and then sets `max_users = v`, keeps every other field and
returns the length of the text; when `v = 0` or `v >= 17` it fails with
`-EINVAL` and the record is unchanged. -/
theorem sysfs_store_range_check (s : my_char_dev) (buf : List Nat)
    (hdig : leadingDigits buf ≠ [])
    (hfit : decimalValue (leadingDigits buf) < SIZE_MOD)
    (hlen : buf.length < 2 ^ 63) :
    (0 ≤ (my_char_dev_sysfs_store s buf).2 ↔
      1 ≤ decimalValue (leadingDigits buf) ∧ decimalValue (leadingDigits buf) ≤ 16) ∧
    (1 ≤ decimalValue (leadingDigits buf) ∧ decimalValue (leadingDigits buf) ≤ 16 →
      my_char_dev_sysfs_store s buf =
        ({ s with max_users := decimalValue (leadingDigits buf) }, (buf.length : Int))) ∧
    (decimalValue (leadingDigits buf) = 0 ∨ 17 ≤ decimalValue (leadingDigits buf) →
      my_char_dev_sysfs_store s buf = (s, -EINVAL)) := by
  have hin := sysfs_store_in_range s buf hdig hfit hlen
  have hout := sysfs_store_out_of_range s buf hdig hfit
  refine ⟨?_, fun h => hin h.1 h.2, hout⟩
  constructor
  · intro hok
    by_contra hcon
    have hbad : decimalValue (leadingDigits buf) = 0 ∨
        17 ≤ decimalValue (leadingDigits buf) := by omega
    rw [hout hbad] at hok
    have hneg : ¬ (0 : Int) ≤ -EINVAL := by decide
    exact hneg hok
  · intro h
    rw [hin h.1 h.2]
    exact Int.natCast_nonneg _

/-- Witness of C6: "0" and "17" are refused and leave the record as it was,
"16" is taken. -/
theorem sysfs_store_range_check_witness :
    my_char_dev_sysfs_store mcd (bytesOf "0") = (mcd, -EINVAL) ∧
    my_char_dev_sysfs_store mcd (bytesOf "17") = (mcd, -EINVAL) ∧
    (my_char_dev_sysfs_store (mcd_open mcd).1 (bytesOf "16")).1.max_users = 16 :=
  ⟨(sysfs_store_range_check mcd (bytesOf "0") (by decide) (by decide) (by decide)).2.2
      (by decide),
   (sysfs_store_range_check mcd (bytesOf "17") (by decide) (by decide) (by decide)).2.2
      (by decide),
   by rw [(sysfs_store_range_check (mcd_open mcd).1 (bytesOf "16")
      (by decide) (by decide) (by decide)).2.1 (by decide)]; decide⟩

/-- C7: with an empty text the store returns 0 (success, nothing consumed) and
changes nothing; with a text whose first byte is not a decimal digit it fails
with `-EINVAL` and changes nothing. -/
theorem sysfs_store_empty_or_unparseable (s : my_char_dev) (c : Nat) (rest : List Nat)
    (hc : isDecDigit c = false) :
    my_char_dev_sysfs_store s [] = (s, 0) ∧
    my_char_dev_sysfs_store s (c :: rest) = (s, -EINVAL) := by
  refine ⟨by simp [my_char_dev_sysfs_store], ?_⟩
  simp [my_char_dev_sysfs_store, simple_strtoul, parse_integer_loop, hc]

/-- Witness of C7: the text "abc". -/
theorem sysfs_store_empty_or_unparseable_witness :
    isDecDigit 97 = false ∧ bytesOf "abc" = 97 :: [98, 99] ∧
    my_char_dev_sysfs_store mcd (97 :: [98, 99]) = (mcd, -EINVAL) :=
  ⟨by decide, by decide,
   (sysfs_store_empty_or_unparseable mcd 97 [98, 99] (by decide)).2⟩

/-- C8: lowering the limit below the current count.  In a record with
`cur_users = c`, storing a text that reads as `m` with `1 <= m < c` and
`m <= 16` succeeds, sets `max_users = m` and keeps `cur_users = c`.  After any
`k <= c - m` releases the count is still at least `m` and `mcd_open` fails
with `-EBUSY`, leaving the record as it is (so repeated opens keep failing);
after `c - m + 1` releases the count is `m - 1` and `mcd_open` returns 0,
bringing the count to `m`. -/
theorem lowering_limit_evicts_nobody (s : my_char_dev) (buf : List Nat) (m : Nat)
    (hfit : counters_fit s)
    (hdig : leadingDigits buf ≠ [])
    (hval : decimalValue (leadingDigits buf) = m)
    (hlen : buf.length < 2 ^ 63)
    (hlo : 1 ≤ m) (hhi : m ≤ MAX_USERS) (hlt : m < s.cur_users) :
    (my_char_dev_sysfs_store s buf).2 = (buf.length : Int) ∧
    (my_char_dev_sysfs_store s buf).1.cur_users = s.cur_users ∧
    (my_char_dev_sysfs_store s buf).1.max_users = m ∧
    (∀ k : Nat, k ≤ s.cur_users - m →
      m ≤ (releaseN k (my_char_dev_sysfs_store s buf).1).cur_users ∧
      mcd_open (releaseN k (my_char_dev_sysfs_store s buf).1) =
        (releaseN k (my_char_dev_sysfs_store s buf).1, -EBUSY)) ∧
    (releaseN (s.cur_users - m + 1) (my_char_dev_sysfs_store s buf).1).cur_users = m - 1 ∧
    (mcd_open (releaseN (s.cur_users - m + 1) (my_char_dev_sysfs_store s buf).1)).2 = 0 ∧
    (mcd_open (releaseN (s.cur_users - m + 1)
      (my_char_dev_sysfs_store s buf).1)).1.cur_users = m := by
  obtain ⟨_, hcur⟩ := hfit
  unfold MAX_USERS at hhi
  have hst : my_char_dev_sysfs_store s buf = ({ s with max_users := m }, (buf.length : Int)) := by
    rw [sysfs_store_in_range s buf hdig (by rw [hval]; unfold SIZE_MOD; omega) hlen
      (by rw [hval]; exact hlo) (by rw [hval]; exact hhi), hval]
  rw [hst]
  simp only
  refine ⟨trivial, trivial, trivial, ?_, ?_⟩
  · intro k hk
    rw [releaseN_eq k { s with max_users := m } hcur (by simp only; omega)]
    have hge : s.cur_users - k ≥ m := by omega
    refine ⟨hge, ?_⟩
    simp [mcd_open, hge]
  · rw [releaseN_eq _ { s with max_users := m } hcur (by simp only; omega)]
    have hcount : s.cur_users - (s.cur_users - m + 1) = m - 1 := by omega
    have hnot : ¬ m - 1 ≥ m := by omega
    have hmod : (m - 1 + 1) % U8_MOD = m := by unfold U8_MOD; omega
    simp [mcd_open, hcount, hnot, hmod]

/-- Witness of C8: eight sessions open, the limit lowered to 5 by the text
"5". -/
theorem lowering_limit_evicts_nobody_witness :
    counters_fit { mcd with cur_users := 8 } ∧
    decimalValue (leadingDigits (bytesOf "5")) = 5 ∧
    (my_char_dev_sysfs_store { mcd with cur_users := 8 } (bytesOf "5")).1.cur_users = 8 ∧
    (my_char_dev_sysfs_store { mcd with cur_users := 8 } (bytesOf "5")).1.max_users = 5 :=
  ⟨by decide, by decide,
   (lowering_limit_evicts_nobody { mcd with cur_users := 8 } (bytesOf "5") 5
      (by decide) (by decide) (by decide) (by decide) (by decide) (by decide)
      (by decide)).2.1,
   (lowering_limit_evicts_nobody { mcd with cur_users := 8 } (bytesOf "5") 5
      (by decide) (by decide) (by decide) (by decide) (by decide) (by decide)
      (by decide)).2.2.1⟩

/-- C9: at the limit (`cur_users = max_users`, `1 <= max_users <= 16`)
`mcd_open` fails with `-EBUSY` and changes nothing; after one `mcd_release`
(which returns 0) the first `mcd_open` returns 0, the second returns `-EBUSY`,
and the record is back to the one at the limit. -/
theorem release_permits_exactly_one_open (s : my_char_dev)
    (hlo : 1 ≤ s.max_users) (hhi : s.max_users ≤ MAX_USERS)
    (hfull : s.cur_users = s.max_users) :
    mcd_open s = (s, -EBUSY) ∧
    (mcd_release s).2 = 0 ∧
    (mcd_release s).1.cur_users = s.max_users - 1 ∧
    (mcd_open (mcd_release s).1).2 = 0 ∧
    (mcd_open (mcd_open (mcd_release s).1).1).2 = -EBUSY ∧
    (mcd_open (mcd_open (mcd_release s).1).1).1.cur_users = s.max_users ∧
    (mcd_open (mcd_open (mcd_release s).1).1).1 = s := by
  unfold MAX_USERS at hhi
  have hbusy : mcd_open s = (s, -EBUSY) := by
    simp [mcd_open, hfull]
  have hmod : (s.cur_users + U8_MOD - 1) % U8_MOD = s.max_users - 1 := by
    unfold U8_MOD; omega
  have hr : mcd_release s = ({ s with cur_users := s.max_users - 1 }, 0) := by
    simp [mcd_release, hmod]
  have hnot : ¬ s.max_users - 1 ≥ s.max_users := by omega
  have hmod2 : (s.max_users - 1 + 1) % U8_MOD = s.cur_users := by
    unfold U8_MOD; omega
  have ho : mcd_open { s with cur_users := s.max_users - 1 } = (s, 0) := by
    simp [mcd_open, hnot, hmod2]
  rw [hr]
  simp only [ho, hbusy]
  exact ⟨trivial, trivial, trivial, trivial, trivial, hfull, trivial⟩

/-- Witness of C9: the limit 16 reached by sixteen sessions. -/
theorem release_permits_exactly_one_open_witness :
    1 ≤ ({ mcd with cur_users := 16 } : my_char_dev).max_users ∧
    ({ mcd with cur_users := 16 } : my_char_dev).max_users ≤ MAX_USERS ∧
    ({ mcd with cur_users := 16 } : my_char_dev).cur_users =
      ({ mcd with cur_users := 16 } : my_char_dev).max_users ∧
    mcd_open { mcd with cur_users := 16 } = ({ mcd with cur_users := 16 }, -EBUSY) ∧
    (mcd_open (mcd_release { mcd with cur_users := 16 }).1).2 = 0 :=
  ⟨by decide, by decide, by decide,
   (release_permits_exactly_one_open { mcd with cur_users := 16 }
      (by decide) (by decide) (by decide)).1,
   (release_permits_exactly_one_open { mcd with cur_users := 16 }
      (by decide) (by decide) (by decide)).2.2.2.1⟩

/-! ## Short transfers -/

/-- A write below the capacity whose copy leaves `U` bytes behind,
`0 < U <= L`: the leading `L - U` bytes land in the buffer, `buf_len` is
cleared and the count `L - U` is returned. -/
theorem mcd_write_short_eq (s : my_char_dev) (d : List Nat) (U : Nat)
    (hL : d.length < BUFFER_SIZE) (hpos : 0 < U) (hle : U ≤ d.length) :
    mcd_write s d U =
      ({ s with buf := d.take (d.length - U) ++ s.buf.drop (d.length - U), buf_len := 0 },
        ((d.length - U : Nat) : Int)) := by
  unfold BUFFER_SIZE at hL
  have hnot : ¬ d.length ≥ BUFFER_SIZE := by unfold BUFFER_SIZE; omega
  have hz : U ≠ 0 := by omega
  have hsub : sizeSub d.length U = d.length - U :=
    sizeSub_of_le _ _ hle (by unfold SIZE_MOD; omega)
  have hs : toSsize (d.length - U) = ((d.length - U : Nat) : Int) :=
    toSsize_of_lt _ (by omega)
  simp [mcd_write, raw_copy_from_user, hnot, hz, hsub, hs]

/-- A read on a non-empty buffer whose copy leaves `U` bytes behind,
`0 < U <= n` with `n = min len buf_len`: the record is returned as it was,
the count is `n - U` and the caller holds the leading `n - U` bytes. -/
theorem mcd_read_short_eq (s : my_char_dev) (len U : Nat)
    (h0 : 0 < s.buf_len) (hcap : s.buf_len ≤ BUFFER_SIZE)
    (hpos : 0 < U) (hle : U ≤ min len s.buf_len) :
    mcd_read s len U =
      (s, ((min len s.buf_len - U : Nat) : Int), s.buf.take (min len s.buf_len - U)) := by
  unfold BUFFER_SIZE at hcap
  have hne : s.buf_len ≠ 0 := by omega
  have hz : U ≠ 0 := by omega
  have hmin : min len s.buf_len ≤ s.buf_len := Nat.min_le_right _ _
  have hsub : sizeSub (min len s.buf_len) U = min len s.buf_len - U :=
    sizeSub_of_le _ _ hle (by unfold SIZE_MOD; omega)
  have hs : toSsize (min len s.buf_len - U) = ((min len s.buf_len - U : Nat) : Int) :=
    toSsize_of_lt _ (by omega)
  simp [mcd_read, raw_copy_to_user, hne, hz, hsub, hs]

/-- C11: partial read.  On a non-empty buffer, with `n = min max_len buf_len`,
a read whose copy leaves `U` bytes undelivered, `0 < U <= n`, returns `n - U`
and leaves the record (`buf_len` and `buf` included) unchanged; the same read
repeated with a fully successful copy returns `n` and delivers the first `n`
bytes of the same data. -/
theorem mcd_read_short_transfer (s : my_char_dev) (max_len U : Nat)
    (h0 : 0 < s.buf_len) (hcap : s.buf_len ≤ BUFFER_SIZE)
    (hpos : 0 < U) (hle : U ≤ min max_len s.buf_len) :
    (mcd_read s max_len U).2.1 = ((min max_len s.buf_len - U : Nat) : Int) ∧
    (mcd_read s max_len U).1 = s ∧
    (mcd_read s max_len U).1.buf_len = s.buf_len ∧
    (mcd_read s max_len U).1.buf = s.buf ∧
    (mcd_read (mcd_read s max_len U).1 max_len 0).2 =
      (((min max_len s.buf_len : Nat) : Int), s.buf.take (min max_len s.buf_len)) := by
  rw [mcd_read_short_eq s max_len U h0 hcap hpos hle]
  refine ⟨rfl, rfl, rfl, rfl, ?_⟩
  simp only
  rw [mcd_read_full s max_len (by omega) (by unfold BUFFER_SIZE at hcap; omega)]

/-- Witness of C11: "hello" stored, a read of up to 10 bytes that loses 2. -/
theorem mcd_read_short_transfer_witness :
    0 < (mcd_write mcd (bytesOf "hello") 0).1.buf_len ∧
    (mcd_write mcd (bytesOf "hello") 0).1.buf_len ≤ BUFFER_SIZE ∧
    0 < 2 ∧ 2 ≤ min 10 (mcd_write mcd (bytesOf "hello") 0).1.buf_len ∧
    (mcd_read (mcd_write mcd (bytesOf "hello") 0).1 10 2).1 =
      (mcd_write mcd (bytesOf "hello") 0).1 :=
  ⟨by decide, by decide, by decide, by decide,
   (mcd_read_short_transfer (mcd_write mcd (bytesOf "hello") 0).1 10 2
      (by decide) (by decide) (by decide) (by decide)).2.1⟩

/-- C13 (as stated, refuted): a write of "hello" of which two bytes are not
transferred returns the count 3 and no negative status; a write of "hello" of
which nothing is transferred returns 0, the very value a successful empty
write returns; a read of which nothing is delivered returns 0 as well, the
value of a read on an empty buffer. -/
theorem full_failure_returns_plain_zero :
    (mcd_write mcd (bytesOf "hello") 2).2 = 3 ∧
    (mcd_write mcd (bytesOf "hello") 5).2 = 0 ∧
    ¬ ((mcd_write mcd (bytesOf "hello") 5).2 < 0) ∧
    (mcd_write mcd [] 0).2 = 0 ∧
    (mcd_read (mcd_write mcd (bytesOf "hello") 0).1 10 5).2.1 = 0 ∧
    ¬ ((mcd_read (mcd_write mcd (bytesOf "hello") 0).1 10 5).2.1 < 0) ∧
    (mcd_read mcd 10 0).2.1 = 0 := by
  decide

/-- C13 (amended): for every record, when the copy of a write of length
`L < 1024` leaves `Uw` bytes behind (`0 < Uw <= L`), the caller receives the
short count `L - Uw` only: a value that is not negative and is smaller than
`L`, with no error status, and 0 when nothing was transferred, the value a
successful empty write returns.  Likewise for every record with a non-empty
buffer, when the copy of a read of `n = min max_len buf_len` bytes leaves `Ur`
behind (`0 < Ur <= n`), the caller receives the short count `n - Ur` only, not
negative and smaller than `n`, and 0 when nothing was delivered, the value a
read on an empty buffer returns. -/
theorem short_transfer_returns_count_only (s : my_char_dev) (d : List Nat)
    (max_len Uw Ur : Nat) :
    (d.length < BUFFER_SIZE → 0 < Uw → Uw ≤ d.length →
      (mcd_write s d Uw).2 = ((d.length - Uw : Nat) : Int) ∧
      0 ≤ (mcd_write s d Uw).2 ∧ (mcd_write s d Uw).2 < (d.length : Int) ∧
      (Uw = d.length →
        (mcd_write s d Uw).2 = 0 ∧ (mcd_write s d Uw).2 = (mcd_write s [] 0).2)) ∧
    (0 < s.buf_len → s.buf_len ≤ BUFFER_SIZE → 0 < Ur → Ur ≤ min max_len s.buf_len →
      (mcd_read s max_len Ur).2.1 = ((min max_len s.buf_len - Ur : Nat) : Int) ∧
      0 ≤ (mcd_read s max_len Ur).2.1 ∧
      (mcd_read s max_len Ur).2.1 < ((min max_len s.buf_len : Nat) : Int) ∧
      (Ur = min max_len s.buf_len →
        (mcd_read s max_len Ur).2.1 = 0 ∧
        (mcd_read s max_len Ur).2.1 = (mcd_read { s with buf_len := 0 } max_len 0).2.1)) := by
  constructor
  · intro hL hwpos hwle
    rw [mcd_write_short_eq s d Uw hL hwpos hwle]
    have hempty : (mcd_write s [] 0).2 = 0 := by
      rw [mcd_write_full s [] (by decide)]
      rfl
    rw [hempty]
    simp only
    refine ⟨trivial, by omega, by omega, fun h => ⟨by omega, by omega⟩⟩
  · intro h0 hcap hrpos hrle
    rw [mcd_read_short_eq s max_len Ur h0 hcap hrpos hrle]
    have hempty : (mcd_read { s with buf_len := 0 } max_len 0).2.1 = 0 := by
      rw [mcd_read_empty _ max_len 0 rfl]
    rw [hempty]
    simp only
    refine ⟨trivial, by omega, by omega, fun h => ⟨by omega, by omega⟩⟩

/-- Witness of C13 (amended): on the record at load time, whose buffer is
empty, "hello" written with two bytes lost and with all five lost; over a
stored "hello", a read of up to 10 bytes that loses two. -/
theorem short_transfer_returns_count_only_witness :
    ((bytesOf "hello").length < BUFFER_SIZE ∧ 0 < 2 ∧ 2 ≤ (bytesOf "hello").length ∧
      mcd.buf_len = 0 ∧
      (mcd_write mcd (bytesOf "hello") 2).2 = (((bytesOf "hello").length - 2 : Nat) : Int) ∧
      0 ≤ (mcd_write mcd (bytesOf "hello") 2).2) ∧
    (0 < 5 ∧ 5 ≤ (bytesOf "hello").length ∧ 5 = (bytesOf "hello").length ∧
      (mcd_write mcd (bytesOf "hello") 5).2 = 0) ∧
    (0 < (mcd_write mcd (bytesOf "hello") 0).1.buf_len ∧
      (mcd_write mcd (bytesOf "hello") 0).1.buf_len ≤ BUFFER_SIZE ∧
      0 < 2 ∧ 2 ≤ min 10 (mcd_write mcd (bytesOf "hello") 0).1.buf_len ∧
      0 ≤ (mcd_read (mcd_write mcd (bytesOf "hello") 0).1 10 2).2.1) :=
  ⟨⟨by decide, by decide, by decide, by decide,
     ((short_transfer_returns_count_only mcd (bytesOf "hello") 10 2 2).1
        (by decide) (by decide) (by decide)).1,
     ((short_transfer_returns_count_only mcd (bytesOf "hello") 10 2 2).1
        (by decide) (by decide) (by decide)).2.1⟩,
   ⟨by decide, by decide, by decide,
     (((short_transfer_returns_count_only mcd (bytesOf "hello") 10 5 2).1
        (by decide) (by decide) (by decide)).2.2.2 (by decide)).1⟩,
   ⟨by decide, by decide, by decide, by decide,
     ((short_transfer_returns_count_only (mcd_write mcd (bytesOf "hello") 0).1
        (bytesOf "hello") 10 2 2).2 (by decide) (by decide) (by decide) (by decide)).2.1⟩⟩

/-- C17: a short read is destructive.  With `buf_len = B` and `max_len < B`
(`max_len = 0` included), a fully successful read returns `max_len`, delivers
exactly the first `max_len` bytes of `buf` and sets `buf_len = 0`; the bytes
that remain are not delivered: any read that follows returns 0 bytes and
changes nothing. -/
theorem short_read_is_destructive (s : my_char_dev) (max_len : Nat)
    (hcap : s.buf_len ≤ BUFFER_SIZE) (hbuf : s.buf.length = BUFFER_SIZE)
    (hlt : max_len < s.buf_len) :
    mcd_read s max_len 0 = ({ s with buf_len := 0 }, (max_len : Int), s.buf.take max_len) ∧
    (s.buf.take max_len).length = max_len ∧
    ∀ len u : Nat,
      mcd_read (mcd_read s max_len 0).1 len u = ({ s with buf_len := 0 }, 0, []) := by
  have hmin : min max_len s.buf_len = max_len := Nat.min_eq_left (by omega)
  have hr : mcd_read s max_len 0 =
      ({ s with buf_len := 0 }, (max_len : Int), s.buf.take max_len) := by
    rw [mcd_read_full s max_len (by omega) (by unfold BUFFER_SIZE at hcap; omega), hmin]
  rw [hr]
  refine ⟨rfl, ?_, fun len u => ?_⟩
  · rw [List.length_take, hbuf]
    exact Nat.min_eq_left (by omega)
  · rw [mcd_read_empty _ len u rfl]

/-- Witness of C17: "hello" stored, read with room for 3 bytes. -/
theorem short_read_is_destructive_witness :
    (mcd_write mcd (bytesOf "hello") 0).1.buf_len ≤ BUFFER_SIZE ∧
    (mcd_write mcd (bytesOf "hello") 0).1.buf.length = BUFFER_SIZE ∧
    3 < (mcd_write mcd (bytesOf "hello") 0).1.buf_len ∧
    (mcd_read (mcd_write mcd (bytesOf "hello") 0).1 3 0).2 = (3, bytesOf "hel") ∧
    (mcd_read (mcd_read (mcd_write mcd (bytesOf "hello") 0).1 3 0).1 10 0).2 = (0, []) := by
  have hlen : (mcd_write mcd (bytesOf "hello") 0).1.buf.length = BUFFER_SIZE := by
    rw [mcd_write_full mcd (bytesOf "hello") (by decide)]
    show (bytesOf "hello" ++
      (List.replicate BUFFER_SIZE 0).drop (bytesOf "hello").length).length = BUFFER_SIZE
    rw [List.length_append, List.length_drop, List.length_replicate]
    decide
  have h := short_read_is_destructive (mcd_write mcd (bytesOf "hello") 0).1 3
    (by decide) hlen (by decide)
  refine ⟨by decide, hlen, by decide, ?_, ?_⟩
  · rw [h.1]
    decide
  · rw [h.2.2 10 0]

/-- C14: the scenario from the record at load time, every copy fully
successful: open returns 0 and `cur_users = 1`; writing the 5 bytes of
"hello" returns 5; reading up to 10 bytes returns 5 and delivers "hello";
reading again returns 0 bytes; release returns 0 and `cur_users = 0`. -/
theorem scenario_open_write_read_release :
    mcd.max_users = 16 ∧ mcd.cur_users = 0 ∧ mcd.buf_len = 0 ∧
    (mcd_open mcd).2 = 0 ∧ (mcd_open mcd).1.cur_users = 1 ∧
    (mcd_write (mcd_open mcd).1 (bytesOf "hello") 0).2 = 5 ∧
    (mcd_read (mcd_write (mcd_open mcd).1 (bytesOf "hello") 0).1 10 0).2 =
      (5, bytesOf "hello") ∧
    (mcd_read (mcd_read (mcd_write (mcd_open mcd).1 (bytesOf "hello") 0).1 10 0).1 10 0).2 =
      (0, []) ∧
    (mcd_release
      (mcd_read (mcd_read (mcd_write (mcd_open mcd).1 (bytesOf "hello") 0).1 10 0).1
        10 0).1).2 = 0 ∧
    (mcd_release
      (mcd_read (mcd_read (mcd_write (mcd_open mcd).1 (bytesOf "hello") 0).1 10 0).1
        10 0).1).1.cur_users = 0 := by
  decide

/-! ## The buffer length along a sequence of calls -/

/-- A run over a sequence that starts with a call is the run of the rest from
the record after that call. -/
theorem bufRun_cons (s : my_char_dev) (op : BufOp) (ops : List BufOp) :
    bufRun s (op :: ops) = bufRun (bufStep s op) ops := rfl

/-- The length that a write leaves: unchanged when the data is refused,
0 when the copy is short, the length of the data otherwise. -/
theorem mcd_write_buf_len (s : my_char_dev) (d : List Nat) (u : Nat) :
    (mcd_write s d u).1.buf_len =
      if d.length ≥ BUFFER_SIZE then s.buf_len else if u ≠ 0 then 0 else d.length := by
  unfold mcd_write raw_copy_from_user
  by_cases h : d.length ≥ BUFFER_SIZE
  · simp [h]
  · by_cases hu : u = 0
    · simp [h, hu]
    · simp [h, hu]

/-- The length that a read leaves: 0 when the buffer was empty or the copy
was complete, unchanged otherwise. -/
theorem mcd_read_buf_len (s : my_char_dev) (len u : Nat) :
    (mcd_read s len u).1.buf_len = if s.buf_len = 0 ∨ u = 0 then 0 else s.buf_len := by
  unfold mcd_read raw_copy_to_user
  by_cases h : s.buf_len = 0
  · simp [h]
  · by_cases hu : u = 0
    · simp [h, hu]
    · simp [h, hu]

/-- Along any sequence of buffer calls the buffer is non-empty exactly when
the kept reading says so, provided this holds at the start. -/
theorem unreadWrite_tracks_buf_len (ops : List BufOp) :
    ∀ (s : my_char_dev) (flag : Bool), (0 < s.buf_len ↔ flag = true) →
      (0 < (bufRun s ops).buf_len ↔ unreadWrite s flag ops = true) := by
  induction ops with
  | nil =>
    intro s flag h
    simpa [bufRun, unreadWrite] using h
  | cons op ops ih =>
    intro s flag h
    rw [bufRun_cons]
    cases op with
    | write d u =>
      simp only [bufStep, unreadWrite]
      apply ih
      rw [mcd_write_buf_len]
      by_cases hd : d.length ≥ BUFFER_SIZE
      · have hnot : ¬ d.length < BUFFER_SIZE := by omega
        simpa [hd, hnot] using h
      · have hlt : d.length < BUFFER_SIZE := by omega
        by_cases hu : u = 0
        · simp [hd, hlt, hu]
        · simp [hd, hlt, hu]
    | read len u =>
      simp only [bufStep, unreadWrite]
      apply ih
      rw [mcd_read_buf_len]
      by_cases hc : s.buf_len = 0 ∨ u = 0
      · simp [hc]
      · simpa [hc] using h

/-- Whenever the kept reading holds after a sequence, the reading in the data
model's words holds too. -/
theorem unreadWrite_le_writeSinceRead (ops : List BufOp) :
    ∀ (s : my_char_dev) (fa fs : Bool), (fa = true → fs = true) →
      unreadWrite s fa ops = true → writeSinceRead s fs ops = true := by
  induction ops with
  | nil =>
    intro s fa fs h hu
    exact h hu
  | cons op ops ih =>
    intro s fa fs h
    cases op with
    | write d u =>
      simp only [unreadWrite, writeSinceRead]
      apply ih
      by_cases hd : d.length < BUFFER_SIZE
      · by_cases hu : u = 0
        · simp [hd, hu]
        · simp [hd, hu]
      · simpa [hd] using h
    | read len u =>
      simp only [unreadWrite, writeSinceRead]
      apply ih
      by_cases hc : s.buf_len = 0 ∨ u = 0
      · simp [hc]
      · simpa [hc] using h

/-- C12 (as stated, refuted): after a successful write of no bytes, and after
a successful write followed by a partly transferred one, a write has succeeded
since the last successful read and yet `buf_len = 0`. -/
theorem write_succeeded_yet_buffer_empty :
    (writeSinceRead mcd false [BufOp.write [] 0] = true ∧
      (bufRun mcd [BufOp.write [] 0]).buf_len = 0) ∧
    (writeSinceRead mcd false [BufOp.write [104, 105] 0, BufOp.write [33] 1] = true ∧
      (bufRun mcd [BufOp.write [104, 105] 0, BufOp.write [33] 1]).buf_len = 0) := by
  decide

/-- C12 (amended): in every state reached from the record at load time by a
sequence of `mcd_write` and `mcd_read` calls with any transfer outcomes,
`buf_len > 0` holds if and only if the latest accepted write (shorter than
1024) was non-empty and fully transferred and no successful read has followed
it; and whenever `buf_len > 0`, some write has succeeded since the last
successful read (or since init). -/
theorem buf_len_positive_iff_unread_write (ops : List BufOp) :
    (0 < (bufRun mcd ops).buf_len ↔ unreadWrite mcd false ops = true) ∧
    (0 < (bufRun mcd ops).buf_len → writeSinceRead mcd false ops = true) := by
  have h := unreadWrite_tracks_buf_len ops mcd false (by decide)
  refine ⟨h, fun hpos => ?_⟩
  exact unreadWrite_le_writeSinceRead ops mcd false false (fun hf => hf) (h.mp hpos)

/-! ## What each call leaves alone -/

/-- A read changes `buf_len` at most. -/
theorem mcd_read_frame (s : my_char_dev) (len u : Nat) :
    { (mcd_read s len u).1 with buf_len := s.buf_len } = s := by
  unfold mcd_read raw_copy_to_user
  by_cases h : s.buf_len = 0
  · rw [if_pos h]
  · by_cases hu : u = 0
    · simp [h, hu]
    · simp [h, hu]

/-- A write changes `buf` and `buf_len` at most. -/
theorem mcd_write_frame (s : my_char_dev) (d : List Nat) (u : Nat) :
    { (mcd_write s d u).1 with buf := s.buf, buf_len := s.buf_len } = s := by
  unfold mcd_write raw_copy_from_user
  by_cases h : d.length ≥ BUFFER_SIZE
  · simp [h]
  · by_cases hu : u = 0
    · simp [h, hu]
    · simp [h, hu]

/-- An open changes `cur_users` at most. -/
theorem mcd_open_frame (s : my_char_dev) :
    { (mcd_open s).1 with cur_users := s.cur_users } = s := by
  unfold mcd_open
  by_cases h : s.cur_users ≥ s.max_users
  · simp [h]
  · simp [h]

/-- A release changes `cur_users` at most. -/
theorem mcd_release_frame (s : my_char_dev) :
    { (mcd_release s).1 with cur_users := s.cur_users } = s := by
  simp [mcd_release]

/-- A store changes `max_users` at most. -/
theorem sysfs_store_frame (s : my_char_dev) (text : List Nat) :
    { (my_char_dev_sysfs_store s text).1 with max_users := s.max_users } = s := by
  unfold my_char_dev_sysfs_store
  by_cases h0 : text.length = 0
  · simp [h0]
  · by_cases hc : (simple_strtoul text).2 = 0
    · simp [h0, hc]
    · by_cases hr : (simple_strtoul text).1 < MIN_USERS ∨ (simple_strtoul text).1 > MAX_USERS
      · simp [h0, hc, hr]
      · simp [h0, hc, hr]

/-! ## Range invariant of the record -/

/-- The ranges of the data model: the admission limit within `[1, 16]` and
the buffer length below the capacity. -/
theorem devStep_keeps_ranges (s : my_char_dev) (op : DevOp)
    (h : 1 ≤ s.max_users ∧ s.max_users ≤ 16 ∧ s.buf_len ≤ 1023) :
    1 ≤ (devStep s op).max_users ∧ (devStep s op).max_users ≤ 16 ∧
      (devStep s op).buf_len ≤ 1023 := by
  obtain ⟨h1, h2, h3⟩ := h
  cases op with
  | «open» =>
    simp only [devStep, mcd_open]
    split <;> exact ⟨h1, h2, h3⟩
  | release =>
    simp only [devStep, mcd_release]
    exact ⟨h1, h2, h3⟩
  | read len u =>
    have hl := mcd_read_buf_len s len u
    have hm : (mcd_read s len u).1.max_users = s.max_users := by
      have hf := congrArg my_char_dev.max_users (mcd_read_frame s len u)
      exact hf
    simp only [devStep]
    refine ⟨by omega, by omega, ?_⟩
    rw [hl]
    split <;> omega
  | write d u =>
    have hl := mcd_write_buf_len s d u
    have hm : (mcd_write s d u).1.max_users = s.max_users := by
      have hf := congrArg my_char_dev.max_users (mcd_write_frame s d u)
      exact hf
    simp only [devStep]
    refine ⟨by omega, by omega, ?_⟩
    rw [hl]
    unfold BUFFER_SIZE
    split
    · omega
    · split <;> omega
  | store text =>
    simp only [devStep, my_char_dev_sysfs_store]
    split
    · exact ⟨h1, h2, h3⟩
    · split
      · exact ⟨h1, h2, h3⟩
      · split
        · exact ⟨h1, h2, h3⟩
        · rename_i hr
          unfold MIN_USERS MAX_USERS at hr
          unfold U8_MOD
          simp only
          omega

/-- C16: range invariant.  In every state reached from the record at load
time by any sequence of `mcd_open`, `mcd_release`, `mcd_read`, `mcd_write` and
`my_char_dev_sysfs_store` calls, with any inputs and transfer outcomes,
`1 <= max_users <= 16` and `buf_len <= 1023` (hence `0 <= buf_len <= 1024`). -/
theorem ranges_hold_in_reachable_states (ops : List DevOp) :
    1 ≤ (devRun mcd ops).max_users ∧ (devRun mcd ops).max_users ≤ 16 ∧
    (devRun mcd ops).buf_len ≤ 1023 ∧ (devRun mcd ops).buf_len ≤ BUFFER_SIZE := by
  have key : ∀ (l : List DevOp) (s : my_char_dev),
      (1 ≤ s.max_users ∧ s.max_users ≤ 16 ∧ s.buf_len ≤ 1023) →
      (1 ≤ (devRun s l).max_users ∧ (devRun s l).max_users ≤ 16 ∧
        (devRun s l).buf_len ≤ 1023) := by
    intro l
    induction l with
    | nil =>
      intro s h
      exact h
    | cons op l ih =>
      intro s h
      exact ih (devStep s op) (devStep_keeps_ranges s op h)
  obtain ⟨h1, h2, h3⟩ := key ops mcd (by decide)
  refine ⟨h1, h2, h3, ?_⟩
  unfold BUFFER_SIZE
  omega

/-! ## Counter underflow -/

/-- C18: counter underflow.  With `cur_users = 0`, `mcd_release` returns 0 and
sets the 8-bit `cur_users` to 255.  From there, for every `max_users` in
`[1, 16]`, `mcd_open` fails with `-EBUSY` (leaving the record as it is) after
any number `k < 255 - max_users + 1` of further releases, and returns 0 once
`255 - max_users + 1` further releases have been made. -/
theorem release_at_zero_wraps (s : my_char_dev)
    (hzero : s.cur_users = 0) (hlo : 1 ≤ s.max_users) (hhi : s.max_users ≤ MAX_USERS) :
    mcd_release s = ({ s with cur_users := 255 }, 0) ∧
    mcd_open (mcd_release s).1 = ((mcd_release s).1, -EBUSY) ∧
    (∀ k : Nat, k < 255 - s.max_users + 1 →
      mcd_open (releaseN k (mcd_release s).1) = (releaseN k (mcd_release s).1, -EBUSY)) ∧
    (mcd_open (releaseN (255 - s.max_users + 1) (mcd_release s).1)).2 = 0 := by
  unfold MAX_USERS at hhi
  have hr : mcd_release s = ({ s with cur_users := 255 }, 0) := by
    simp [mcd_release, hzero, U8_MOD]
  have hfit : ({ s with cur_users := 255 } : my_char_dev).cur_users < U8_MOD := by
    unfold U8_MOD
    simp only
    omega
  rw [hr]
  simp only
  refine ⟨trivial, ?_, ?_, ?_⟩
  · have hge : (255 : Nat) ≥ s.max_users := by omega
    simp [mcd_open, hge]
  · intro k hk
    rw [releaseN_eq k { s with cur_users := 255 } hfit (by simp only; omega)]
    have hge : 255 - k ≥ s.max_users := by omega
    simp [mcd_open, hge]
  · rw [releaseN_eq _ { s with cur_users := 255 } hfit (by simp only; omega)]
    have hcount : 255 - (255 - s.max_users + 1) = s.max_users - 1 := by omega
    have hnot : ¬ s.max_users - 1 ≥ s.max_users := by omega
    simp [mcd_open, hcount, hnot]

/-- Witness of C18: a release on the record at load time. -/
theorem release_at_zero_wraps_witness :
    mcd.cur_users = 0 ∧ 1 ≤ mcd.max_users ∧ mcd.max_users ≤ MAX_USERS ∧
    mcd_release mcd = ({ mcd with cur_users := 255 }, 0) ∧
    mcd_open (mcd_release mcd).1 = ((mcd_release mcd).1, -EBUSY) :=
  ⟨by decide, by decide, by decide,
   (release_at_zero_wraps mcd (by decide) (by decide) (by decide)).1,
   (release_at_zero_wraps mcd (by decide) (by decide) (by decide)).2.1⟩

/-! ## Frame conditions -/

/-- C19: frame conditions.  For every record and every input, `mcd_open` and
`mcd_release` change no field other than `cur_users`; `mcd_read` changes no
field other than `buf_len` (so never the contents of `buf`); `mcd_write`
changes no field other than `buf` and `buf_len`; `my_char_dev_sysfs_store`
changes no field other than `max_users`. -/
theorem frame_conditions (s : my_char_dev) (len u : Nat) (d text : List Nat) :
    { (mcd_open s).1 with cur_users := s.cur_users } = s ∧
    { (mcd_release s).1 with cur_users := s.cur_users } = s ∧
    { (mcd_read s len u).1 with buf_len := s.buf_len } = s ∧
    (mcd_read s len u).1.buf = s.buf ∧
    { (mcd_write s d u).1 with buf := s.buf, buf_len := s.buf_len } = s ∧
    { (my_char_dev_sysfs_store s text).1 with max_users := s.max_users } = s := by
  refine ⟨mcd_open_frame s, mcd_release_frame s, mcd_read_frame s len u, ?_,
    mcd_write_frame s d u, sysfs_store_frame s text⟩
  have hf := congrArg my_char_dev.buf (mcd_read_frame s len u)
  exact hf

/-! ## Trailing bytes of the configuration text -/

/-- The leading digit run of a run of digits followed by bytes that do not
start with a digit is that run. -/
theorem leadingDigits_append (ds rest : List Nat)
    (hdig : ∀ c ∈ ds, isDecDigit c = true)
    (hrest : ∀ c ∈ rest.head?, isDecDigit c = false) :
    leadingDigits (ds ++ rest) = ds := by
  induction ds with
  | nil =>
    cases rest with
    | nil => rfl
    | cons c cs =>
      have hc : isDecDigit c = false := hrest c (by simp)
      simp [leadingDigits, List.takeWhile_cons, hc]
  | cons c cs ih =>
    have hc : isDecDigit c = true := hdig c (List.mem_cons_self c cs)
    have hcs : ∀ x ∈ cs, isDecDigit x = true :=
      fun x hx => hdig x (List.mem_cons_of_mem c hx)
    have htail : leadingDigits (cs ++ rest) = cs := ih hcs
    unfold leadingDigits at htail ⊢
    rw [List.cons_append, List.takeWhile_cons, hc]
    simp only [if_true]
    rw [htail]

/-- C20: trailing bytes are ignored.  On a text made of a non-empty run of
decimal digits of value `v`, `1 <= v <= 16`, followed by any bytes the first of
which is not a digit, the store sets `max_users = v`, keeps every other field
and returns the full length of the text. -/
theorem sysfs_store_ignores_trailing_bytes (s : my_char_dev) (ds rest : List Nat)
    (hds : ds ≠ [])
    (hdig : ∀ c ∈ ds, isDecDigit c = true)
    (hrest : ∀ c ∈ rest.head?, isDecDigit c = false)
    (hlo : 1 ≤ decimalValue ds) (hhi : decimalValue ds ≤ 16)
    (hlen : (ds ++ rest).length < 2 ^ 63) :
    my_char_dev_sysfs_store s (ds ++ rest) =
      ({ s with max_users := decimalValue ds }, ((ds ++ rest).length : Int)) := by
  have hld := leadingDigits_append ds rest hdig hrest
  have h := sysfs_store_in_range s (ds ++ rest) (by rw [hld]; exact hds)
    (by rw [hld]; unfold SIZE_MOD; omega) hlen (by rw [hld]; exact hlo)
    (by rw [hld]; exact hhi)
  rw [hld] at h
  exact h

/-- Witness of C20: the texts "5\n" (as written by echo) and "5abc". -/
theorem sysfs_store_ignores_trailing_bytes_witness :
    bytesOf "5\n" = [53] ++ [10] ∧ bytesOf "5abc" = [53] ++ [97, 98, 99] ∧
    decimalValue [53] = 5 ∧
    my_char_dev_sysfs_store mcd ([53] ++ [10]) =
      ({ mcd with max_users := decimalValue [53] }, ((([53] : List Nat) ++ [10]).length : Int)) ∧
    my_char_dev_sysfs_store mcd ([53] ++ [97, 98, 99]) =
      ({ mcd with max_users := decimalValue [53] },
        ((([53] : List Nat) ++ [97, 98, 99]).length : Int)) :=
  ⟨by decide, by decide, by decide,
   sysfs_store_ignores_trailing_bytes mcd [53] [10] (by decide) (by decide) (by decide)
     (by decide) (by decide) (by decide),
   sysfs_store_ignores_trailing_bytes mcd [53] [97, 98, 99] (by decide) (by decide)
     (by decide) (by decide) (by decide) (by decide)⟩

/-! ## Module load -/

/-- C15: what `mcd_init` does when a later publication fails.  When the
debugfs entry cannot be created, `mcd_init` returns `-ENODEV` with the device
number, the class and the device node still published; when the class
attribute file cannot be created, it returns `-ENOMEM` with the device channel
and the debugfs entry still published.  Inside `my_char_dev_init`, on the
other hand, a failing `device_create` does undo the class and the device
number. -/
theorem mcd_init_failure_keeps_endpoints :
    ((mcd_init mcd unpublished loadDbgfsFails).2.2 = -ENODEV ∧
      (mcd_init mcd unpublished loadDbgfsFails).2.1 =
        { chrdev := true, cls := true, device := true, dbgfs := false, sysfs := false }) ∧
    ((mcd_init mcd unpublished loadSysfsFails).2.2 = -ENOMEM ∧
      (mcd_init mcd unpublished loadSysfsFails).2.1 =
        { chrdev := true, cls := true, device := true, dbgfs := true, sysfs := false }) ∧
    ((mcd_init mcd unpublished
        { loadSysfsFails with device_create := ERR_PTR (-ENOMEM) }).2.2 = -ENOMEM ∧
      (mcd_init mcd unpublished
        { loadSysfsFails with device_create := ERR_PTR (-ENOMEM) }).2.1 = unpublished) := by
  decide

end MyCdev
